import Mathlib

/-!
# Verification of the prompt-book server core

A shallow embedding, in Lean 4, of the core algorithms of the
`prompt-book-mcp-server` repository:

* the text chunker `splitTextIntoChunks` (src/index.ts, identical copy in the
  bundled compiled source), modelling JavaScript strings as `List Char` and
  `String.prototype.lastIndexOf(pat, fromIndex)` explicitly;
* the cursor-based pagination loop shared by `fetchAllResults` and
  `fetchAllBlocks`;
* the block-tree decoder `extractContentFromBlocks` together with its
  table formatter, numbering state and child recursion;
* the request trace of `updatePrompt`.

The `while` loops of the source are modelled with an explicit fuel
parameter; theorems show the fuel needed is bounded by the input size, which
is the termination argument of the original loops.
-/

namespace PromptBook

/-! ## Text chunker (`splitTextIntoChunks`)

JavaScript strings are modelled as `List Char`; `s.length`, `s.substring`
and `s.lastIndexOf` become `List.length`, `take`/`drop` and
`lastIndexOfFrom`.  `lastIndexOf` returns `-1` when the pattern does not
occur, hence the `Int` result type. -/

/-- Does `pat` occur in `s` starting at position `i`?  (As in JavaScript, a
match may begin at `i` only if the whole pattern fits inside `s`.) -/
def matchesAt (s pat : List Char) (i : Nat) : Bool :=
  pat.isPrefixOf (s.drop i)

/-- `lastIndexOfFrom s pat fromIdx` is JavaScript's
`s.lastIndexOf(pat, fromIdx)`: the largest position `≤ fromIdx` at which
`pat` begins in `s`, or `-1` when there is none.  Note a match may *begin*
exactly at `fromIdx` even when it extends past it. -/
def lastIndexOfFrom (s pat : List Char) : Nat → Int
  | 0 => if matchesAt s pat 0 then 0 else -1
  | i + 1 => if matchesAt s pat (i + 1) then ((i : Int) + 1) else lastIndexOfFrom s pat i

/-- The break-point computation of one iteration of the `splitTextIntoChunks`
loop: search backwards from `m` for a paragraph break `"\n\n"`, then a
sentence break `". "`/`"! "`/`"? "`, then a space, accepting a candidate when
its position is past the midpoint of the window (the source compares
`pos > maxLength / 2` with real division, which for integers is
`2 * pos > maxLength`); otherwise cut at `m` exactly.  The accepted break's
delimiter is included in the preceding chunk (`+ 2` resp. `+ 1`). -/
def breakPointOf (rem : List Char) (m : Nat) : Nat :=
  let paragraphBreak := lastIndexOfFrom rem ['\n', '\n'] m
  if 2 * paragraphBreak > (m : Int) then (paragraphBreak + 2).toNat
  else
    let sentenceBreak := max (lastIndexOfFrom rem ['.', ' '] m)
      (max (lastIndexOfFrom rem ['!', ' '] m) (lastIndexOfFrom rem ['?', ' '] m))
    if 2 * sentenceBreak > (m : Int) then (sentenceBreak + 2).toNat
    else
      let spaceBreak := lastIndexOfFrom rem [' '] m
      if 2 * spaceBreak > (m : Int) then (spaceBreak + 1).toNat
      else m

/-- The `while (remainingText.length > 0)` loop of `splitTextIntoChunks`,
with explicit fuel.  Each iteration either pushes the final chunk (when the
remainder fits) or cuts `breakPointOf` characters off the front.  With
`maxLength ≥ 1` every cut is non-trivial, so fuel `remaining.length` is
enough (`splitLoop_stable` below). -/
def splitLoop (m : Nat) : Nat → List Char → List (List Char)
  | 0, _ => []
  | fuel + 1, rem =>
    if rem.length = 0 then []
    else if rem.length ≤ m then [rem]
    else
      let bp := breakPointOf rem m
      rem.take bp :: splitLoop m fuel (rem.drop bp)

/-- `splitTextIntoChunks(text, maxLength)`: a text that already fits is
returned as a single chunk, otherwise the cutting loop runs. -/
def splitTextIntoChunks (text : List Char) (m : Nat) : List (List Char) :=
  if text.length ≤ m then [text]
  else splitLoop m text.length text

/-! ### Chunker lemmas -/

theorem matchesAt_bound {s pat : List Char} {i : Nat} (h : matchesAt s pat i = true)
    (hpat : pat ≠ []) : i + pat.length ≤ s.length := by
  unfold matchesAt at h
  have hpre : pat <+: s.drop i := List.isPrefixOf_iff_prefix.mp h
  have hlen : pat.length ≤ (s.drop i).length := hpre.length_le
  rw [List.length_drop] at hlen
  rcases Nat.lt_or_ge i s.length with hi | hi
  · omega
  · exfalso
    rw [List.drop_eq_nil_of_le hi] at hpre
    exact hpat (List.prefix_nil.mp hpre)

theorem lastIndexOfFrom_le (s pat : List Char) (f : Nat) :
    lastIndexOfFrom s pat f ≤ (f : Int) := by
  induction f with
  | zero => unfold lastIndexOfFrom; split <;> simp
  | succ n ih =>
    unfold lastIndexOfFrom
    split
    · simp
    · calc lastIndexOfFrom s pat n ≤ (n : Int) := ih
        _ ≤ ((n + 1 : Nat) : Int) := by push_cast; omega

theorem lastIndexOfFrom_matches (s pat : List Char) (f : Nat)
    (h : 0 ≤ lastIndexOfFrom s pat f) :
    matchesAt s pat (lastIndexOfFrom s pat f).toNat = true := by
  induction f with
  | zero =>
    by_cases hm : matchesAt s pat 0 = true
    · have heq : lastIndexOfFrom s pat 0 = 0 := by simp [lastIndexOfFrom, hm]
      rw [heq]; exact hm
    · have heq : lastIndexOfFrom s pat 0 = -1 := by simp [lastIndexOfFrom, hm]
      rw [heq] at h; omega
  | succ n ih =>
    by_cases hm : matchesAt s pat (n + 1) = true
    · have heq : lastIndexOfFrom s pat (n + 1) = (n : Int) + 1 := by
        simp [lastIndexOfFrom, hm]
      rw [heq]
      have ht : ((n : Int) + 1).toNat = n + 1 := by omega
      rw [ht]; exact hm
    · have heq : lastIndexOfFrom s pat (n + 1) = lastIndexOfFrom s pat n := by
        simp [lastIndexOfFrom, hm]
      rw [heq] at h ⊢
      exact ih h

theorem breakPointOf_pos {rem : List Char} {m : Nat} (hm : 1 ≤ m) :
    1 ≤ breakPointOf rem m := by
  unfold breakPointOf
  dsimp only
  split
  · next hc => omega
  · split
    · next hc => omega
    · split
      · next hc => omega
      · exact hm

theorem breakPointOf_le {rem : List Char} {m : Nat} (hlen : m < rem.length) :
    breakPointOf rem m ≤ rem.length := by
  unfold breakPointOf
  dsimp only
  split
  · next hc =>
    have h0 : 0 ≤ lastIndexOfFrom rem ['\n', '\n'] m := by omega
    have := matchesAt_bound (lastIndexOfFrom_matches rem ['\n', '\n'] m h0) (by simp)
    simp only [List.length_cons, List.length_nil] at this
    omega
  · split
    · next hc =>
      set a := lastIndexOfFrom rem ['.', ' '] m with ha
      set b := lastIndexOfFrom rem ['!', ' '] m with hb
      set c := lastIndexOfFrom rem ['?', ' '] m with hc2
      have h0 : 0 ≤ max a (max b c) := by omega
      have hmatch : matchesAt rem ['.', ' '] (max a (max b c)).toNat = true
          ∨ matchesAt rem ['!', ' '] (max a (max b c)).toNat = true
          ∨ matchesAt rem ['?', ' '] (max a (max b c)).toNat = true := by
        rcases max_choice a (max b c) with h1 | h1
        · rw [h1]; rw [h1] at h0
          exact Or.inl (lastIndexOfFrom_matches rem ['.', ' '] m h0)
        · rw [h1]; rw [h1] at h0
          rcases max_choice b c with h2 | h2
          · rw [h2]; rw [h2] at h0
            exact Or.inr (Or.inl (lastIndexOfFrom_matches rem ['!', ' '] m h0))
          · rw [h2]; rw [h2] at h0
            exact Or.inr (Or.inr (lastIndexOfFrom_matches rem ['?', ' '] m h0))
      rcases hmatch with h | h | h <;>
      · have := matchesAt_bound h (by simp)
        simp only [List.length_cons, List.length_nil] at this
        omega
    · split
      · next hc =>
        have h0 : 0 ≤ lastIndexOfFrom rem [' '] m := by omega
        have := matchesAt_bound (lastIndexOfFrom_matches rem [' '] m h0) (by simp)
        simp only [List.length_cons, List.length_nil] at this
        omega
      · omega

theorem splitLoop_nil (m fuel : Nat) : splitLoop m fuel [] = [] := by
  cases fuel <;> simp [splitLoop]

theorem splitLoop_join {m : Nat} (hm : 1 ≤ m) :
    ∀ fuel rem, rem.length ≤ fuel → (splitLoop m fuel rem).flatten = rem := by
  intro fuel
  induction fuel with
  | zero =>
    intro rem h
    have : rem = [] := List.length_eq_zero.mp (by omega)
    subst this
    simp [splitLoop]
  | succ n ih =>
    intro rem h
    rw [splitLoop]
    dsimp only
    split
    · next h0 =>
      have : rem = [] := List.length_eq_zero.mp h0
      simp [this]
    · split
      · simp
      · next h0 h1 =>
        have hbp1 : 1 ≤ breakPointOf rem m := breakPointOf_pos hm
        have hdrop : (rem.drop (breakPointOf rem m)).length ≤ n := by
          rw [List.length_drop]; omega
        simp only [List.flatten_cons, ih _ hdrop, List.take_append_drop]

theorem splitLoop_stable {m : Nat} (hm : 1 ≤ m) :
    ∀ fuel fuel' rem, rem.length ≤ fuel → rem.length ≤ fuel' →
      splitLoop m fuel rem = splitLoop m fuel' rem := by
  intro fuel
  induction fuel with
  | zero =>
    intro fuel' rem h h'
    have : rem = [] := List.length_eq_zero.mp (by omega)
    subst this
    rw [splitLoop_nil, splitLoop_nil]
  | succ n ih =>
    intro fuel' rem h h'
    cases fuel' with
    | zero =>
      have : rem = [] := List.length_eq_zero.mp (by omega)
      subst this
      rw [splitLoop_nil, splitLoop_nil]
    | succ k =>
      rw [splitLoop, splitLoop]
      dsimp only
      split
      · rfl
      · split
        · rfl
        · next h0 h1 =>
          have hbp1 : 1 ≤ breakPointOf rem m := breakPointOf_pos hm
          have hdrop : (rem.drop (breakPointOf rem m)).length = rem.length - breakPointOf rem m :=
            List.length_drop _ _
          rw [ih k (rem.drop (breakPointOf rem m)) (by omega) (by omega)]

theorem splitLoop_ne_nil {m : Nat} (fuel : Nat) (rem : List Char)
    (h : rem.length ≤ fuel) (h2 : rem ≠ []) : splitLoop m fuel rem ≠ [] := by
  cases fuel with
  | zero =>
    exact absurd (List.length_eq_zero.mp (by omega)) h2
  | succ n =>
    rw [splitLoop]
    dsimp only
    split
    · next h0 => exact absurd (List.length_eq_zero.mp h0) h2
    · split
      · simp
      · simp

theorem splitLoop_chunks_ne_nil {m : Nat} (hm : 1 ≤ m) :
    ∀ fuel rem, rem.length ≤ fuel → ∀ c ∈ splitLoop m fuel rem, c ≠ [] := by
  intro fuel
  induction fuel with
  | zero =>
    intro rem h c hc
    have : rem = [] := List.length_eq_zero.mp (by omega)
    subst this
    rw [splitLoop_nil] at hc
    exact absurd hc (List.not_mem_nil c)
  | succ n ih =>
    intro rem h c hc
    rw [splitLoop] at hc
    dsimp only at hc
    split at hc
    · exact absurd hc (List.not_mem_nil c)
    · split at hc
      · next h0 h1 =>
        rw [List.mem_singleton] at hc
        subst hc
        exact fun hnil => h0 (by simp [hnil])
      · next h0 h1 =>
        have hbp1 : 1 ≤ breakPointOf rem m := breakPointOf_pos hm
        rcases List.mem_cons.mp hc with hc | hc
        · subst hc
          have : (rem.take (breakPointOf rem m)).length = min (breakPointOf rem m) rem.length :=
            List.length_take _ _
          intro hnil
          rw [hnil] at this
          simp at this
          omega
        · exact ih (rem.drop (breakPointOf rem m)) (by rw [List.length_drop]; omega) c hc

/-! ### Claim theorems for the chunker -/

/-- **C1** (chunk round-trip): for every string `s` and every `maxLength
`m ≥ 1`, concatenating in order all chunks returned by
`splitTextIntoChunks s m` yields exactly `s`: the splitter never drops,
duplicates or adds characters, and each accepted break delimiter stays in
exactly one chunk. -/
theorem chunk_roundtrip (s : List Char) (m : Nat) (hm : 1 ≤ m) :
    (splitTextIntoChunks s m).flatten = s := by
  unfold splitTextIntoChunks
  split
  · simp
  · exact splitLoop_join hm s.length s le_rfl

/-- Witness for `chunk_roundtrip` at `s = "aaaa\n\nbb"`, `m = 4`. -/
theorem chunk_roundtrip_witness :
    1 ≤ 4 ∧ (splitTextIntoChunks ("aaaa\n\nbb".toList) 4).flatten = "aaaa\n\nbb".toList :=
  ⟨by decide, chunk_roundtrip ("aaaa\n\nbb".toList) 4 (by decide)⟩

/-- **C2** (chunk bound, failing evaluation): the claim that every chunk has
length `≤ m` unless no valid break point exists in the window fails on the
code.  At `s = "aaaa\n\nbb"`, `m = 4` a paragraph break qualifies (it starts
exactly at index `m = 4`, which `lastIndexOf(pat, m)` admits, and it is past
the midpoint), and including its delimiter makes the first chunk `"aaaa\n\n"`
of length `m + 2 = 6 > m`.  The same off-by-one occurs at the configured
`m = 2000` (e.g. 2000 `'a'`s followed by `"\n\nb"` gives a 2002-character
chunk), contradicting the source's own comment that chunks "respect Notion's
2000 character limit". -/
theorem chunk_bound_code_bug :
    splitTextIntoChunks ("aaaa\n\nbb".toList) 4
      = [['a', 'a', 'a', 'a', '\n', '\n'], ['b', 'b']]
    ∧ (['a', 'a', 'a', 'a', '\n', '\n'] : List Char).length = 4 + 2
    ∧ 2 * lastIndexOfFrom ("aaaa\n\nbb".toList) ['\n', '\n'] 4 > ((4 : Nat) : Int) :=
  ⟨by decide, by decide, by decide⟩

/-- **C10** (chunker progress and termination): for `maxLength ≥ 1` the loop
needs at most `text.length` iterations (any larger fuel computes the same
list, because every chosen break point is strictly positive), the result is
a non-empty list, and for non-empty input every chunk is non-empty. -/
theorem chunker_progress (s : List Char) (m : Nat) (hm : 1 ≤ m) :
    (∀ fuel, s.length ≤ fuel → splitLoop m fuel s = splitLoop m s.length s)
    ∧ splitTextIntoChunks s m ≠ []
    ∧ (s ≠ [] → ∀ c ∈ splitTextIntoChunks s m, c ≠ []) := by
  refine ⟨fun fuel hf => splitLoop_stable hm fuel s.length s hf le_rfl, ?_, ?_⟩
  · unfold splitTextIntoChunks
    split
    · simp
    · next h0 =>
      refine splitLoop_ne_nil s.length s le_rfl ?_
      intro hnil
      rw [hnil] at h0
      simp at h0
  · intro hs c hc
    unfold splitTextIntoChunks at hc
    split at hc
    · rw [List.mem_singleton] at hc
      subst hc
      exact hs
    · exact splitLoop_chunks_ne_nil hm s.length s le_rfl c hc

/-- Witness for `chunker_progress` at `s = "hello world"`, `m = 3`. -/
theorem chunker_progress_witness :
    1 ≤ 3
    ∧ ((∀ fuel, ("hello world".toList).length ≤ fuel →
          splitLoop 3 fuel ("hello world".toList)
            = splitLoop 3 ("hello world".toList).length ("hello world".toList))
        ∧ splitTextIntoChunks ("hello world".toList) 3 ≠ []
        ∧ ("hello world".toList ≠ [] →
            ∀ c ∈ splitTextIntoChunks ("hello world".toList) 3, c ≠ [])) :=
  ⟨by decide, chunker_progress ("hello world".toList) 3 (by decide)⟩

/-! ## Pagination fetcher (`fetchAllResults` / `fetchAllBlocks`)

Both helpers run the identical `while (hasMore)` loop, differing only in the
remote endpoint they hit (`databases.query` vs `blocks.children.list`).  The
remote is modelled as a function from the request's `start_cursor` to the
page it answers with; `response.next_cursor || undefined` maps both a
missing and an empty-string cursor to `none` (`normCursor`).  The loop is
given fuel and returns `none` when the fuel runs out, which models the
(possible) divergence of the source loop against an adversarial remote. -/

/-- One page of a paginated Notion response. -/
structure PaginatedResponse (α : Type) where
  results : List α
  has_more : Bool
  next_cursor : Option String

/-- `response.next_cursor || undefined`: an absent or empty-string cursor
becomes `none`. -/
def normCursor : Option String → Option String
  | some s => if s = "" then none else some s
  | none => none

/-- The shared pagination loop: request the page at `cursor`, append its
records, then stop if the remote said "no more", stop early if "more" was
signalled without a usable cursor (the source's safety check), and otherwise
continue from the new cursor. -/
def fetchLoop {α : Type} (remote : Option String → PaginatedResponse α) :
    Nat → Option String → List α → Option (List α)
  | 0, _, _ => none
  | fuel + 1, cursor, acc =>
    let resp := remote cursor
    let acc' := acc ++ resp.results
    let cursor' := normCursor resp.next_cursor
    if cursor' = none ∧ resp.has_more = true then some acc'
    else if resp.has_more = false then some acc'
    else fetchLoop remote fuel cursor' acc'

/-- `fetchAllResults(queryParams)`: run the loop from no cursor with an empty
accumulator. -/
def fetchAllResults {α : Type} (remote : Option String → PaginatedResponse α)
    (fuel : Nat) : Option (List α) :=
  fetchLoop remote fuel none []

/-- `fetchAllBlocks(blockId)`: the identical loop against the
children-listing endpoint. -/
def fetchAllBlocks {α : Type} (remote : Option String → PaginatedResponse α)
    (fuel : Nat) : Option (List α) :=
  fetchLoop remote fuel none []

/-- `Serves remote cursor pages`: starting from `cursor` the remote serves
exactly the page sequence `pages`: every non-final page reports
`has_more = true` together with a non-empty continuation cursor leading to
the rest, and the final page reports `has_more = false`. -/
inductive Serves {α : Type} (remote : Option String → PaginatedResponse α) :
    Option String → List (List α) → Prop
  | last {c : Option String} {p : List α} {nc : Option String}
      (h : remote c = ⟨p, false, nc⟩) : Serves remote c [p]
  | more {c : Option String} {p : List α} {c' : String} {rest : List (List α)}
      (h : remote c = ⟨p, true, some c'⟩) (hc : c' ≠ "")
      (hrest : Serves remote (some c') rest) : Serves remote c (p :: rest)

/-! ### Claim theorems for the fetcher -/

/-- **C3** (fetcher termination safety valve): whenever a page response
reports `has_more = true` but carries no usable continuation cursor, the
loop returns right after accumulating that page's records instead of
issuing another request; in particular `fetchAllResults` and
`fetchAllBlocks` stop after such a first page. -/
theorem fetcher_safety_valve {α : Type} (remote : Option String → PaginatedResponse α)
    (fuel : Nat) (cursor : Option String) (acc : List α)
    (h₁ : (remote cursor).has_more = true)
    (h₂ : normCursor (remote cursor).next_cursor = none)
    (h₃ : (remote none).has_more = true)
    (h₄ : normCursor (remote none).next_cursor = none) :
    fetchLoop remote (fuel + 1) cursor acc = some (acc ++ (remote cursor).results)
    ∧ fetchAllResults remote (fuel + 1) = some (remote none).results
    ∧ fetchAllBlocks remote (fuel + 1) = some (remote none).results := by
  refine ⟨?_, ?_, ?_⟩ <;>
    simp [fetchLoop, fetchAllResults, fetchAllBlocks, h₁, h₂, h₃, h₄]

/-- Witness for `fetcher_safety_valve`: a remote that always answers
`has_more = true` with no cursor. -/
theorem fetcher_safety_valve_witness :
    (⟨[1, 2], true, none⟩ : PaginatedResponse Nat).has_more = true
    ∧ normCursor (⟨[1, 2], true, none⟩ : PaginatedResponse Nat).next_cursor = none
    ∧ (fetchLoop (fun _ => (⟨[1, 2], true, none⟩ : PaginatedResponse Nat)) 5 (some "x") [0]
          = some ([0] ++ [1, 2])
        ∧ fetchAllResults (fun _ => (⟨[1, 2], true, none⟩ : PaginatedResponse Nat)) 5
          = some [1, 2]
        ∧ fetchAllBlocks (fun _ => (⟨[1, 2], true, none⟩ : PaginatedResponse Nat)) 5
          = some [1, 2]) :=
  ⟨rfl, rfl, (fetcher_safety_valve (fun _ => ⟨[1, 2], true, none⟩) 4 (some "x") [0]
      rfl rfl rfl rfl).1,
    (fetcher_safety_valve (fun _ => ⟨[1, 2], true, none⟩) 4 (some "x") [0]
      rfl rfl rfl rfl).2.1,
    (fetcher_safety_valve (fun _ => ⟨[1, 2], true, none⟩) 4 (some "x") [0]
      rfl rfl rfl rfl).2.2⟩

theorem fetchLoop_serves {α : Type} {remote : Option String → PaginatedResponse α}
    {cursor : Option String} {pages : List (List α)}
    (h : Serves remote cursor pages) :
    ∀ fuel acc, pages.length ≤ fuel →
      fetchLoop remote fuel cursor acc = some (acc ++ pages.flatten) := by
  induction h with
  | @last c p nc hp =>
    intro fuel acc hf
    cases fuel with
    | zero => simp at hf
    | succ n =>
      rw [fetchLoop]
      simp [hp]
  | @more c p c' rest hp hc hrest ih =>
    intro fuel acc hf
    cases fuel with
    | zero => simp at hf
    | succ n =>
      rw [fetchLoop]
      simp only [hp]
      have hnorm : normCursor (some c') = some c' := by simp [normCursor, hc]
      simp only [hnorm]
      rw [if_neg (by simp), if_neg (by simp)]
      rw [ih n (acc ++ p) (by simpa using Nat.le_of_succ_le_succ hf)]
      simp

/-- **C4** (fetcher completeness and order preservation): for every
well-formed simulated paginated source (`Serves`), `fetchAllResults` (and
the identical `fetchAllBlocks`) returns exactly the concatenation of all
pages' record lists in the remote's order — all records, no deduplication,
no reordering. -/
theorem fetcher_completeness {α : Type} (remote : Option String → PaginatedResponse α)
    (pages : List (List α)) (fuel : Nat)
    (h : Serves remote none pages) (hf : pages.length ≤ fuel) :
    fetchAllResults remote fuel = some pages.flatten
    ∧ fetchAllBlocks remote fuel = some pages.flatten := by
  constructor <;>
    simpa [fetchAllResults, fetchAllBlocks] using fetchLoop_serves h fuel [] hf

/-- Witness for `fetcher_completeness`: three records split over two pages. -/
theorem fetcher_completeness_witness :
    Serves
      (fun c => if c = none then (⟨[10, 11], true, some "c1"⟩ : PaginatedResponse Nat)
        else ⟨[12], false, none⟩) none [[10, 11], [12]]
    ∧ ([[10, 11], [12]] : List (List Nat)).length ≤ 2
    ∧ (fetchAllResults
          (fun c => if c = none then (⟨[10, 11], true, some "c1"⟩ : PaginatedResponse Nat)
            else ⟨[12], false, none⟩) 2 = some [10, 11, 12]
        ∧ fetchAllBlocks
          (fun c => if c = none then (⟨[10, 11], true, some "c1"⟩ : PaginatedResponse Nat)
            else ⟨[12], false, none⟩) 2 = some [10, 11, 12]) :=
  have hs : Serves
      (fun c => if c = none then (⟨[10, 11], true, some "c1"⟩ : PaginatedResponse Nat)
        else ⟨[12], false, none⟩) none [[10, 11], [12]] :=
    Serves.more rfl (by decide) (Serves.last rfl)
  ⟨hs, by decide, by
    simpa using fetcher_completeness _ [[10, 11], [12]] 2 hs (by decide)⟩

/-! ## Block↔text decoder (`extractContentFromBlocks`)

A `Block` is one node of the remote document tree: its `type` tag string,
the plain texts of its rich-text runs, its `has_children` flag, the
kind-specific payload fields the decoder reads, and the ordered child list
that `fetchAllBlocks(block.id)` would return (the decoder's child-fetch
capability is thereby a fixed function from block to children, which is the
"fixed block tree" of the spec).  The `listNumbering` JavaScript object is
modelled as an association list updated by overwriting, and its in-place
mutation as explicit state passing: every function returns the map with
which the source would have left the shared object. -/

/-- Kind-specific payload fields read by the decoder. -/
structure BlockExtra where
  language : Option String
  checked : Bool
  emoji : Option String
  cells : List (List String)
  urlKind : String
  url : String
  caption : List String
  expression : String
  linkKind : String
  linkId : String
deriving DecidableEq

/-- A payload with nothing in it. -/
def noExtra : BlockExtra := ⟨none, false, none, [], "", "", [], "", "", ""⟩

/-- A node of the block tree. -/
inductive Block where
  | mk (btype : String) (richText : List String) (hasChildren : Bool)
      (extra : BlockExtra) (children : List Block)

def Block.btype : Block → String
  | .mk t _ _ _ _ => t

def Block.richText : Block → List String
  | .mk _ r _ _ _ => r

def Block.hasChildren : Block → Bool
  | .mk _ _ h _ _ => h

def Block.extra : Block → BlockExtra
  | .mk _ _ _ e _ => e

def Block.children : Block → List Block
  | .mk _ _ _ _ c => c

/-- The mutable `listNumbering` object: keys `"{depth}-numbered"` etc. to
the next number to emit. -/
abbrev ListMap := List (String × Nat)

/-- `listNumbering[listId] = v` (assignment overwrites). -/
def mapSet (M : ListMap) (k : String) (v : Nat) : ListMap :=
  (k, v) :: M.filter (fun p => p.1 != k)

/-- `listNumbering[listId]` (may be absent). -/
def mapGet (M : ListMap) (k : String) : Option Nat :=
  M.lookup k

/-- `listNumbering[listId] || 1`. -/
def listNumberOf (M : ListMap) (k : String) : Nat :=
  match mapGet M k with
  | some v => if v = 0 then 1 else v
  | none => 1

/-- `.map(part => part.plain_text).join('')`. -/
def joinRuns (rs : List String) : String :=
  String.join rs

/-- `'  '.repeat(indentLevel)`. -/
def indentOf (lvl : Nat) : String :=
  String.join (List.replicate lvl "  ")

/-- `` `${indentLevel}-${isNumbered ? 'numbered' : isBulleted ? 'bulleted' :
'none'}` ``. -/
def listIdOf (lvl : Nat) (isNumbered isBulleted : Bool) : String :=
  Nat.repr lvl ++ "-" ++ (if isNumbered then "numbered"
    else if isBulleted then "bulleted" else "none")

/-- The list-context bookkeeping at the top of the loop body (source lines
"Track list context" / "Handle list transitions"): a list item that starts a
new run (different current type or id) resets the numbered counter to 1 and
becomes the current run; any non-list block clears the current run. -/
def listTransition (t : String) (lvl : Nat) (clt : Option String) (cli : String)
    (M : ListMap) : Option String × String × ListMap :=
  let isNumberedList := t == "numbered_list_item"
  let isBulletedList := t == "bulleted_list_item"
  let isList := isNumberedList || isBulletedList
  let listId := listIdOf lvl isNumberedList isBulletedList
  if isList then
    if clt ≠ some t ∨ cli ≠ listId then
      (some t, listId, if isNumberedList then mapSet M listId 1 else M)
    else (clt, cli, M)
  else (none, "", M)

/-- `type.charAt(0).toUpperCase() + type.slice(1)`. -/
def capFirst (s : String) : String :=
  match s.data with
  | [] => ""
  | c :: cs => String.mk (Char.toUpper c :: cs)

/-- The row loop of `formatTableContent`: the first `table_row` becomes the
header row followed by a `---` separator row, later `table_row`s become data
rows, anything else is skipped. -/
def formatTableRows : List Block → String → Bool → String
  | [], _, _ => ""
  | row :: rest, indent, hasProcessedHeader =>
    if row.btype == "table_row" then
      let cells := row.extra.cells.map joinRuns
      if hasProcessedHeader then
        (indent ++ "| " ++ String.intercalate " | " cells ++ " |\n")
          ++ formatTableRows rest indent true
      else
        (indent ++ "| " ++ String.intercalate " | " cells ++ " |\n")
          ++ (indent ++ "| " ++ String.intercalate " | " (cells.map (fun _ => "---")) ++ " |\n")
          ++ formatTableRows rest indent true
    else formatTableRows rest indent hasProcessedHeader

/-- `formatTableContent(tableRows, indent)`. -/
def formatTableContent (tableRows : List Block) (indent : String) : String :=
  formatTableRows tableRows indent false ++ "\n"

mutual

/-- The `for` loop of `extractContentFromBlocks` over a block sequence,
threading the accumulated `content`, the loop-local current-list state
(`currentListType`, `currentListId`) and the shared `listNumbering` map. -/
def decodeBlocks : List Block → String → Option String → String → ListMap → Nat →
    String × Option String × String × ListMap
  | [], content, clt, cli, M, _ => (content, clt, cli, M)
  | b :: rest, content, clt, cli, M, lvl =>
    let r := decodeBlock b content clt cli M lvl
    decodeBlocks rest r.1 r.2.1 r.2.2.1 r.2.2.2 lvl

/-- One iteration of the loop body of `extractContentFromBlocks`: the list
transition followed by the type dispatch, appending this block's rendering
(and, where the source recurses, its children's) to `content`. -/
def decodeBlock : Block → String → Option String → String → ListMap → Nat →
    String × Option String × String × ListMap
  | Block.mk t rich hasCh ex children, content, clt, cli, M, lvl =>
    let indent := indentOf lvl
    let isNumberedList := t == "numbered_list_item"
    let isBulletedList := t == "bulleted_list_item"
    let isList := isNumberedList || isBulletedList
    let listId := listIdOf lvl isNumberedList isBulletedList
    let tr := listTransition t lvl clt cli M
    let clt' := tr.1
    let cli' := tr.2.1
    let M' := tr.2.2
    let text := joinRuns rich
    if t == "paragraph" then
      (content ++ indent ++ text ++ "\n\n", clt', cli', M')
    else if t == "heading_1" then
      (content ++ indent ++ "# " ++ text ++ "\n\n", clt', cli', M')
    else if t == "heading_2" then
      (content ++ indent ++ "## " ++ text ++ "\n\n", clt', cli', M')
    else if t == "heading_3" then
      (content ++ indent ++ "### " ++ text ++ "\n\n", clt', cli', M')
    else if t == "bulleted_list_item" then
      let base := content ++ indent ++ "â€¢ " ++ text
      if hasCh then
        let rc := decodeBlocks children "" none "" M' (lvl + 1)
        if rc.1.trim ≠ "" then (base ++ "\n" ++ rc.1 ++ "\n", clt', cli', rc.2.2.2)
        else (base ++ "\n", clt', cli', rc.2.2.2)
      else (base ++ "\n", clt', cli', M')
    else if t == "numbered_list_item" then
      let number := listNumberOf M' listId
      let base := content ++ indent ++ Nat.repr number ++ ". " ++ text
      let M2 := mapSet M' listId (number + 1)
      if hasCh then
        let rc := decodeBlocks children "" none "" M2 (lvl + 1)
        if rc.1.trim ≠ "" then (base ++ "\n" ++ rc.1 ++ "\n", clt', cli', rc.2.2.2)
        else (base ++ "\n", clt', cli', rc.2.2.2)
      else (base ++ "\n", clt', cli', M2)
    else if t == "code" then
      (content ++ indent ++ "<pre><code class=\"" ++ ex.language.getD "" ++ "\">\n"
        ++ text ++ "\n</code></pre>\n\n", clt', cli', M')
    else if t == "quote" then
      (content ++ indent ++ "> " ++ text ++ "\n\n", clt', cli', M')
    else if t == "divider" then
      (content ++ indent ++ "---\n\n", clt', cli', M')
    else if t == "toggle" then
      let base := content ++ indent ++ "**" ++ text ++ "**\n\n"
      if hasCh then
        let rc := decodeBlocks children "" none "" M' (lvl + 1)
        (base ++ rc.1, clt', cli', rc.2.2.2)
      else (base, clt', cli', M')
    else if t == "to_do" then
      let base := content ++ indent ++ "- [" ++ (if ex.checked then "x" else " ")
        ++ "] " ++ text ++ "\n"
      if hasCh then
        let rc := decodeBlocks children "" none "" M' (lvl + 1)
        (base ++ rc.1, clt', cli', rc.2.2.2)
      else (base, clt', cli', M')
    else if t == "callout" then
      let base := content ++ indent ++ "> " ++ ex.emoji.getD "" ++ " **Note:** "
        ++ text ++ "\n\n"
      if hasCh then
        let rc := decodeBlocks children "" none "" M' (lvl + 1)
        (base ++ rc.1, clt', cli', rc.2.2.2)
      else (base, clt', cli', M')
    else if t == "table" then
      if hasCh then (content ++ formatTableContent children indent, clt', cli', M')
      else (content, clt', cli', M')
    else if t == "image" then
      let imageUrl := if ex.urlKind == "external" then ex.url
        else if ex.urlKind == "file" then ex.url else ""
      let caption := if ex.caption.length > 0 then joinRuns ex.caption else "Image"
      (content ++ indent ++ "![" ++ caption ++ "](" ++ imageUrl ++ ")\n\n", clt', cli', M')
    else if t == "bookmark" then
      let caption := if ex.caption.length > 0 then joinRuns ex.caption else ex.url
      (content ++ indent ++ "[" ++ caption ++ "](" ++ ex.url ++ ")\n\n", clt', cli', M')
    else if t == "embed" || t == "video" || t == "audio" || t == "file" || t == "pdf" then
      let url := if ex.urlKind == "external" then ex.url
        else if ex.urlKind == "file" then ex.url else ""
      (content ++ indent ++ "[" ++ capFirst t ++ "](" ++ url ++ ")\n\n", clt', cli', M')
    else if t == "equation" then
      (content ++ indent ++ "$$\n" ++ ex.expression ++ "\n$$\n\n", clt', cli', M')
    else if t == "synced_block" then
      if hasCh then
        let rc := decodeBlocks children "" none "" M' lvl
        (content ++ rc.1, clt', cli', rc.2.2.2)
      else (content, clt', cli', M')
    else if t == "template" then
      (content ++ indent ++ "*Template:* " ++ text ++ "\n\n", clt', cli', M')
    else if t == "link_to_page" then
      let pageId := if ex.linkKind == "page_id" then ex.linkId
        else if ex.linkKind == "database_id" then ex.linkId else ""
      (content ++ indent ++ "[Link to page](notion://page/" ++ pageId ++ ")\n\n",
        clt', cli', M')
    else if t == "column_list" && hasCh then
      let rc := decodeColumns children content M' lvl
      (rc.1, clt', cli', rc.2)
    else if hasCh && !isList then
      let rc := decodeBlocks children "" none "" M' lvl
      (content ++ rc.1, clt', cli', rc.2.2.2)
    else
      (content, clt', cli', M')

/-- The column loop of the `column_list` branch: every `column` child with
children is decoded at the same indent level and appended. -/
def decodeColumns : List Block → String → ListMap → Nat → String × ListMap
  | [], content, M, _ => (content, M)
  | Block.mk ct _crich cHasCh _cex cchildren :: rest, content, M, lvl =>
    if ct == "column" && cHasCh then
      let rc := decodeBlocks cchildren "" none "" M lvl
      decodeColumns rest (content ++ rc.1) rc.2.2.2 lvl
    else decodeColumns rest content M lvl

end

/-- `extractContentFromBlocks(blocks, listNumbering, indentLevel)`: run the
loop with empty content and no current list run, returning the content and
the final state of the shared `listNumbering` object. -/
def extractContentFromBlocks (blocks : List Block) (M : ListMap) (lvl : Nat) :
    String × ListMap :=
  let r := decodeBlocks blocks "" none "" M lvl
  (r.1, r.2.2.2)

/-! ### Decoder lemmas -/

theorem joinRuns_singleton (s : String) : joinRuns [s] = s := rfl

theorem mapGet_mapSet_self (M : ListMap) (k : String) (v : Nat) :
    mapGet (mapSet M k v) k = some v := by
  simp [mapGet, mapSet, List.lookup]

theorem mapSet_mapSet_self (M : ListMap) (k : String) (a b : Nat) :
    mapSet (mapSet M k a) k b = mapSet M k b := by
  simp [mapSet, List.filter_filter]

/-- Processing `xs ++ ys` is processing `xs`, then `ys` from the resulting
state. -/
theorem decodeBlocks_append (xs ys : List Block) (c : String) (clt : Option String)
    (cli : String) (M : ListMap) (lvl : Nat) :
    decodeBlocks (xs ++ ys) c clt cli M lvl
      = (fun r => decodeBlocks ys r.1 r.2.1 r.2.2.1 r.2.2.2 lvl)
          (decodeBlocks xs c clt cli M lvl) := by
  induction xs generalizing c clt cli M with
  | nil => simp [decodeBlocks]
  | cons b rest ih =>
    simp only [List.cons_append, decodeBlocks]
    exact ih _ _ _ _

/-- Any block that is not a list item leaves the loop with an empty current
list run (`currentListType = null`, `currentListId = ''`). -/
theorem decodeBlock_nonlist_state (b : Block) (c : String) (clt : Option String)
    (cli : String) (M : ListMap) (lvl : Nat)
    (hb : (b.btype == "numbered_list_item" || b.btype == "bulleted_list_item") = false) :
    (decodeBlock b c clt cli M lvl).2.1 = none
    ∧ (decodeBlock b c clt cli M lvl).2.2.1 = "" := by
  obtain ⟨t, rich, hasCh, ex, children⟩ := b
  simp only [Block.btype, Bool.or_eq_false_iff] at hb
  obtain ⟨h1, h2⟩ := hb
  have htr : listTransition t lvl clt cli M = (none, "", M) := by
    simp [listTransition, h1, h2]
  refine ⟨?_, ?_⟩ <;>
    simp [decodeBlock, htr, apply_ite Prod.snd, apply_ite Prod.fst, ite_self]

/-- A numbered list item with plain text `s` and no children. -/
def numItem (s : String) : Block :=
  Block.mk "numbered_list_item" [s] false noExtra []

/-- The rendering of an uninterrupted numbered run starting at number `k`:
`"{indent}{k}. {t₁}\n{indent}{k+1}. {t₂}\n…"`. -/
def numberedRun (lvl : Nat) : Nat → List String → String
  | _, [] => ""
  | k, t :: ts =>
    indentOf lvl ++ Nat.repr k ++ ". " ++ t ++ "\n" ++ numberedRun lvl (k + 1) ts

theorem decodeBlock_numItem_run (lvl : Nat) (t c : String) (M : ListMap) (k : Nat)
    (hget : mapGet M (listIdOf lvl true false) = some k) (hk : k ≠ 0) :
    decodeBlock (numItem t) c (some "numbered_list_item") (listIdOf lvl true false) M lvl
      = (c ++ indentOf lvl ++ Nat.repr k ++ ". " ++ t ++ "\n", some "numbered_list_item",
         listIdOf lvl true false, mapSet M (listIdOf lvl true false) (k + 1)) := by
  simp [decodeBlock, numItem, listTransition, listNumberOf, hget, hk, joinRuns_singleton]

theorem decodeBlock_numItem_fresh (lvl : Nat) (t c : String) (M : ListMap) :
    decodeBlock (numItem t) c none "" M lvl
      = (c ++ indentOf lvl ++ Nat.repr 1 ++ ". " ++ t ++ "\n", some "numbered_list_item",
         listIdOf lvl true false, mapSet M (listIdOf lvl true false) 2) := by
  simp [decodeBlock, numItem, listTransition, listNumberOf, mapGet_mapSet_self,
    mapSet_mapSet_self, joinRuns_singleton]

/-- Inside a numbered run (current type and id match, counter at `k`), a
sequence of childless numbered items renders `numberedRun lvl k ts` and
bumps the counter by the number of items. -/
theorem numbered_run_from (lvl : Nat) (ts : List String) :
    ∀ (k : Nat) (c : String) (M : ListMap),
      mapGet M (listIdOf lvl true false) = some k → k ≠ 0 →
      decodeBlocks (ts.map numItem) c (some "numbered_list_item")
          (listIdOf lvl true false) M lvl
        = (c ++ numberedRun lvl k ts, some "numbered_list_item", listIdOf lvl true false,
           if ts.isEmpty then M
           else mapSet M (listIdOf lvl true false) (k + ts.length)) := by
  induction ts with
  | nil =>
    intro k c M hget hk
    simp [decodeBlocks, numberedRun]
  | cons t ts ih =>
    intro k c M hget hk
    simp only [List.map_cons, decodeBlocks, decodeBlock_numItem_run lvl t c M k hget hk]
    rw [ih (k + 1) _ _ (mapGet_mapSet_self _ _ _) (by omega)]
    simp only [numberedRun, List.isEmpty_cons, List.length_cons]
    cases ts with
    | nil =>
      simp [numberedRun, String.append_assoc]
    | cons u us =>
      simp only [List.isEmpty_cons, if_false, Bool.false_eq_true, mapSet_mapSet_self]
      rw [show k + 1 + (u :: us).length = k + ((u :: us).length + 1) by omega]
      simp [String.append_assoc]

/-- From an empty current run (the state any non-list block leaves behind),
a non-empty sequence of childless numbered items restarts numbering at 1,
renders `numberedRun lvl 1 ts` and leaves the counter at `ts.length + 1`. -/
theorem numbered_run_start (lvl : Nat) (ts : List String) (hts : ts ≠ [])
    (c : String) (M : ListMap) :
    decodeBlocks (ts.map numItem) c none "" M lvl
      = (c ++ numberedRun lvl 1 ts, some "numbered_list_item", listIdOf lvl true false,
         mapSet M (listIdOf lvl true false) (ts.length + 1)) := by
  cases ts with
  | nil => exact absurd rfl hts
  | cons t ts =>
    simp only [List.map_cons, decodeBlocks, decodeBlock_numItem_fresh lvl t c M]
    rw [numbered_run_from lvl ts 2 _ _ (mapGet_mapSet_self _ _ _) (by omega)]
    simp only [numberedRun, List.length_cons]
    cases ts with
    | nil =>
      simp [numberedRun, String.append_assoc]
    | cons u us =>
      simp only [List.isEmpty_cons, if_false, Bool.false_eq_true, mapSet_mapSet_self]
      rw [show 2 + (u :: us).length = (u :: us).length + 1 + 1 by omega]
      simp [String.append_assoc]

/-! ### Claim theorems for the decoder -/

/-- **C5** (list numbering reset): in one decode pass, after any prefix and
any non-list block `q`, a following run of numbered items is emitted with
numbers restarting at 1 and counting 1, 2, 3, … (`numberedRun lvl 1 ts`),
and the stored counter for that depth ends at `ts.length + 1`; the pass then
continues with the remaining blocks.  Instantiating the prefix with an
earlier numbered run at the same depth gives exactly the claim: a numbered
run interrupted by a paragraph restarts at 1. -/
theorem numbering_reset (pre : List Block) (q : Block) (ts : List String)
    (rest : List Block) (M : ListMap) (lvl : Nat)
    (hq : (q.btype == "numbered_list_item" || q.btype == "bulleted_list_item") = false)
    (hts : ts ≠ []) :
    decodeBlocks (pre ++ q :: ts.map numItem ++ rest) "" none "" M lvl
      = (fun r => decodeBlocks rest (r.1 ++ numberedRun lvl 1 ts)
           (some "numbered_list_item") (listIdOf lvl true false)
           (mapSet r.2.2.2 (listIdOf lvl true false) (ts.length + 1)) lvl)
          (decodeBlocks (pre ++ [q]) "" none "" M lvl) := by
  have hsplit : pre ++ q :: ts.map numItem ++ rest
      = (pre ++ [q]) ++ (ts.map numItem ++ rest) := by simp
  rw [hsplit, decodeBlocks_append]
  simp only []
  rw [decodeBlocks_append]
  have hstate : decodeBlocks (pre ++ [q]) "" none "" M lvl
      = ((decodeBlocks (pre ++ [q]) "" none "" M lvl).1, none, "",
         (decodeBlocks (pre ++ [q]) "" none "" M lvl).2.2.2) := by
    rw [decodeBlocks_append]
    simp only [decodeBlocks]
    exact Prod.ext rfl (Prod.ext
      ((decodeBlock_nonlist_state q _ _ _ _ lvl hq).1)
      (Prod.ext ((decodeBlock_nonlist_state q _ _ _ _ lvl hq).2) rfl))
  rw [hstate]
  simp only []
  rw [numbered_run_start lvl ts hts]

/-- Witness for `numbering_reset`: `[1. a, 2. b, paragraph, 1. c, 2. d]`. -/
theorem numbering_reset_witness :
    ((Block.mk "paragraph" ["x"] false noExtra []).btype == "numbered_list_item"
        || (Block.mk "paragraph" ["x"] false noExtra []).btype == "bulleted_list_item")
      = false
    ∧ (["c", "d"] : List String) ≠ []
    ∧ decodeBlocks ([numItem "a", numItem "b"]
          ++ Block.mk "paragraph" ["x"] false noExtra [] :: (["c", "d"].map numItem) ++ [])
          "" none "" [] 0
      = (fun r => decodeBlocks [] (r.1 ++ numberedRun 0 1 ["c", "d"])
           (some "numbered_list_item") (listIdOf 0 true false)
           (mapSet r.2.2.2 (listIdOf 0 true false) ((["c", "d"] : List String).length + 1)) 0)
          (decodeBlocks ([numItem "a", numItem "b"]
            ++ [Block.mk "paragraph" ["x"] false noExtra []]) "" none "" [] 0) :=
  ⟨rfl, by decide,
    numbering_reset [numItem "a", numItem "b"] (Block.mk "paragraph" ["x"] false noExtra [])
      ["c", "d"] [] [] 0 rfl (by decide)⟩

/-- **C6** (concrete decode scenario): the four-block sequence
`[heading_1 "Title", paragraph "Body text.", 1. "First", 2. "Second"]`
decodes to exactly `"# Title\n\nBody text.\n\n1. First\n2. Second\n"`. -/
theorem decode_scenario :
    (extractContentFromBlocks
        [Block.mk "heading_1" ["Title"] false noExtra [],
         Block.mk "paragraph" ["Body text."] false noExtra [],
         Block.mk "numbered_list_item" ["First"] false noExtra [],
         Block.mk "numbered_list_item" ["Second"] false noExtra []] [] 0).1
      = "# Title\n\nBody text.\n\n1. First\n2. Second\n" := rfl

/-- The block kinds handled by a dedicated branch of the dispatch. -/
def handledKind (t : String) : Bool :=
  t == "paragraph" || t == "heading_1" || t == "heading_2" || t == "heading_3"
    || t == "bulleted_list_item" || t == "numbered_list_item" || t == "code"
    || t == "quote" || t == "divider" || t == "toggle" || t == "to_do"
    || t == "callout" || t == "table" || t == "image" || t == "bookmark"
    || t == "embed" || t == "video" || t == "audio" || t == "file" || t == "pdf"
    || t == "equation" || t == "synced_block" || t == "template"
    || t == "link_to_page" || t == "column_list"

/-- **C7** (unknown-kind passthrough): a block of an unhandled kind with
`has_children = true` emits no text of its own but appends its children's
decoded content at the same depth, with the numbering map threaded through —
nested content is never silently dropped. -/
theorem unknown_passthrough (t : String) (rich : List String) (ex : BlockExtra)
    (children : List Block) (c : String) (clt : Option String) (cli : String)
    (M : ListMap) (lvl : Nat) (ht : handledKind t = false) :
    decodeBlock (Block.mk t rich true ex children) c clt cli M lvl
      = (c ++ (decodeBlocks children "" none "" M lvl).1, none, "",
         (decodeBlocks children "" none "" M lvl).2.2.2) := by
  simp only [handledKind, Bool.or_eq_false_iff] at ht
  obtain ⟨⟨⟨⟨⟨⟨⟨⟨⟨⟨⟨⟨⟨⟨⟨⟨⟨⟨⟨⟨⟨⟨⟨⟨h1, h2⟩, h3⟩, h4⟩, h5⟩, h6⟩, h7⟩, h8⟩, h9⟩, h10⟩,
    h11⟩, h12⟩, h13⟩, h14⟩, h15⟩, h16⟩, h17⟩, h18⟩, h19⟩, h20⟩, h21⟩, h22⟩, h23⟩,
    h24⟩, h25⟩ := ht
  simp [decodeBlock, listTransition, h1, h2, h3, h4, h5, h6, h7, h8, h9, h10, h11,
    h12, h13, h14, h15, h16, h17, h18, h19, h20, h21, h22, h23, h24, h25]

/-- Witness for `unknown_passthrough`: an unrecognized wrapper with one
paragraph child still yields that paragraph's text. -/
theorem unknown_passthrough_witness :
    handledKind "mystery_kind" = false
    ∧ decodeBlock
        (Block.mk "mystery_kind" [] true noExtra
          [Block.mk "paragraph" ["hi"] false noExtra []]) "" none "" [] 0
      = ("" ++ (decodeBlocks [Block.mk "paragraph" ["hi"] false noExtra []]
            "" none "" [] 0).1, none, "",
         (decodeBlocks [Block.mk "paragraph" ["hi"] false noExtra []]
            "" none "" [] 0).2.2.2)
    ∧ (decodeBlock
        (Block.mk "mystery_kind" [] true noExtra
          [Block.mk "paragraph" ["hi"] false noExtra []]) "" none "" [] 0).1
      = "hi\n\n" :=
  ⟨rfl,
    unknown_passthrough "mystery_kind" [] noExtra
      [Block.mk "paragraph" ["hi"] false noExtra []] "" none "" [] 0 rfl,
    rfl⟩

/-! ## `updatePrompt` request trace

`updatePrompt` is modelled as the ordered list of remote requests it issues,
as a function of its arguments (each optional field is `Option`-valued, an
absent field being `none`) and of the remote's state (whether the page
exists, the valid `Type` options of the database, the ids of the page's
existing child blocks).  The argument validation (`hasUpdates`) throws
before any request; a failing page retrieve or an invalid type value ends
the call after the requests issued so far. -/

/-- The arguments of the `update_prompt` tool (besides `prompt_id`). -/
structure UpdateArgs where
  name : Option String
  detailed_prompt : Option (List Char)
  type : Option String
  tags : Option (List String)

/-- One chunk of content as a paragraph block (`createParagraphBlocksFromText`
wraps each chunk in a paragraph block carrying it as a single rich-text
run). -/
structure ParagraphBlock where
  content : List Char
deriving DecidableEq

/-- `createParagraphBlocksFromText(text)`: chunk at the default maximum
length 2000 and wrap each chunk in a paragraph block. -/
def createParagraphBlocksFromText (text : List Char) : List ParagraphBlock :=
  (splitTextIntoChunks text 2000).map (fun c => ⟨c⟩)

/-- The `properties` object assembled by `updatePrompt`: an entry per
supplied field. -/
structure PageProps where
  pName : Option String
  pType : Option String
  pTags : Option (List String)
deriving DecidableEq

/-- The requests `updatePrompt` can issue against the remote service. -/
inductive NotionRequest where
  | retrievePage
  | retrieveDatabase
  | updatePageProperties (props : PageProps)
  | listChildren
  | deleteBlock (id : String)
  | appendChildren (children : List ParagraphBlock)
deriving DecidableEq

/-- `args.name !== undefined || args.detailed_prompt !== undefined || …`. -/
def hasUpdates (a : UpdateArgs) : Bool :=
  a.name.isSome || a.detailed_prompt.isSome || a.type.isSome || a.tags.isSome

/-- The assembled `properties` object. -/
def propsOf (a : UpdateArgs) : PageProps :=
  ⟨a.name, a.type, a.tags⟩

/-- `Object.keys(properties).length > 0` is false iff no field was set. -/
def propsEmpty (p : PageProps) : Bool :=
  p.pName.isNone && p.pType.isNone && p.pTags.isNone

/-- The requests issued after validation: the properties update when some
property field was supplied, then — when `detailed_prompt` was supplied —
the children listing, one delete per existing child block, and one append of
the freshly encoded paragraph blocks. -/
def mainRequests (a : UpdateArgs) (existingIds : List String) : List NotionRequest :=
  (if propsEmpty (propsOf a) then []
    else [NotionRequest.updatePageProperties (propsOf a)])
  ++ (match a.detailed_prompt with
    | some dp =>
      NotionRequest.listChildren :: existingIds.map NotionRequest.deleteBlock
        ++ [NotionRequest.appendChildren (createParagraphBlocksFromText dp)]
    | none => [])

/-- The full request trace of one `updatePrompt` call: nothing when the
no-update validation throws; the page retrieve always comes first; a
supplied `type` triggers a database retrieve to validate it, an invalid
value ending the call there. -/
def updatePromptTrace (a : UpdateArgs) (pageExists : Bool)
    (validTypes : List String) (existingIds : List String) : List NotionRequest :=
  if hasUpdates a = false then []
  else if pageExists = false then [NotionRequest.retrievePage]
  else match a.type with
    | some ty =>
      if validTypes.contains ty then
        NotionRequest.retrievePage :: NotionRequest.retrieveDatabase
          :: mainRequests a existingIds
      else [NotionRequest.retrievePage, NotionRequest.retrieveDatabase]
    | none => NotionRequest.retrievePage :: mainRequests a existingIds

/-! ### Claim theorem for `updatePrompt` -/

/-- **C9** (frame property of `update_prompt`): when `detailed_prompt` is
the only update field supplied, no page-properties update request is issued
(the page's Name, Type and Tags are untouched); when `detailed_prompt` is
absent, no block delete and no block append is issued (the page's content
blocks are untouched). -/
theorem updatePrompt_frame (a : UpdateArgs) (pageExists : Bool)
    (validTypes : List String) (existingIds : List String)
    (p : PageProps) (bid : String) (cs : List ParagraphBlock) :
    (a.detailed_prompt ≠ none → a.name = none → a.type = none → a.tags = none →
      NotionRequest.updatePageProperties p
        ∉ updatePromptTrace a pageExists validTypes existingIds)
    ∧ (a.detailed_prompt = none →
      NotionRequest.deleteBlock bid
          ∉ updatePromptTrace a pageExists validTypes existingIds
        ∧ NotionRequest.appendChildren cs
          ∉ updatePromptTrace a pageExists validTypes existingIds) := by
  obtain ⟨nm, dp, ty, tg⟩ := a
  constructor
  · intro hdp hnm hty htg
    simp only at hnm hty htg
    subst hnm; subst hty; subst htg
    cases dp with
    | none => exact absurd rfl hdp
    | some d =>
      simp only [updatePromptTrace, hasUpdates, mainRequests, propsEmpty, propsOf]
      simp
      split
      · simp
      · simp [List.mem_cons, List.mem_append, List.mem_map]
  · intro hdp
    simp only at hdp
    subst hdp
    constructor <;>
    · simp only [updatePromptTrace, hasUpdates, mainRequests]
      split
      · simp
      · split
        · simp
        · split
          · split
            · split <;> simp
            · simp
          · split <;> simp

/-- Witness for `updatePrompt_frame`: a content-only update issues no
properties update; a properties-only update issues no delete and no
append. -/
theorem updatePrompt_frame_witness :
    NotionRequest.updatePageProperties ⟨none, none, none⟩
        ∉ updatePromptTrace ⟨none, some ("new content".toList), none, none⟩ true ["T"] ["b1"]
    ∧ NotionRequest.deleteBlock "b1"
        ∉ updatePromptTrace ⟨some "N", none, none, some ["t"]⟩ true ["T"] ["b1"]
    ∧ NotionRequest.appendChildren []
        ∉ updatePromptTrace ⟨some "N", none, none, some ["t"]⟩ true ["T"] ["b1"] :=
  ⟨(updatePrompt_frame ⟨none, some ("new content".toList), none, none⟩ true ["T"] ["b1"]
      ⟨none, none, none⟩ "b1" []).1 (by simp) rfl rfl rfl,
    ((updatePrompt_frame ⟨some "N", none, none, some ["t"]⟩ true ["T"] ["b1"]
      ⟨none, none, none⟩ "b1" []).2 rfl).1,
    ((updatePrompt_frame ⟨some "N", none, none, some ["t"]⟩ true ["T"] ["b1"]
      ⟨none, none, none⟩ "b1" []).2 rfl).2⟩

/-! ## Decode runs and determinism

A *run* of the decoder is modelled by a big-step evaluation relation `Ev`
over the three mutually recursive procedures (`decodeBlocks` /
`decodeBlock` / `decodeColumns`): one derivation per child-fetch-and-recurse
the source performs, with the straight-line string building of each branch
computed.  `Ev call out` holds exactly of the outputs an execution of the
source can produce on the fixed block tree; determinism of the decoder is
the statement that `Ev` is functional, proved via `Ev_eq_eval` (every
derivation's output is the one `decodeBlocks` computes) and complemented by
`Ev_eval` (every call has a derivation, so the relation covers every block
tree). -/

/-- A pending call of one of the three recursive procedures. -/
inductive DecodeCall where
  | seq (blocks : List Block) (content : String) (clt : Option String) (cli : String)
      (M : ListMap) (lvl : Nat)
  | blk (b : Block) (content : String) (clt : Option String) (cli : String)
      (M : ListMap) (lvl : Nat)
  | cols (columns : List Block) (content : String) (M : ListMap) (lvl : Nat)

/-- The result the functional embedding computes for a call (`decodeColumns`
returns no list-run state; it is padded with the fixed pair `none, ""`). -/
def evalCall : DecodeCall → String × Option String × String × ListMap
  | .seq bs c clt cli M lvl => decodeBlocks bs c clt cli M lvl
  | .blk b c clt cli M lvl => decodeBlock b c clt cli M lvl
  | .cols cs c M lvl =>
    ((decodeColumns cs c M lvl).1, none, "", (decodeColumns cs c M lvl).2)

/-- Big-step evaluation: one constructor per control path of the source, a
sub-derivation per recursive child decode. -/
inductive Ev : DecodeCall → String × Option String × String × ListMap → Prop
  | seqNil {c clt cli M lvl} : Ev (.seq [] c clt cli M lvl) (c, clt, cli, M)
  | seqCons {b rest c clt cli M lvl c₁ clt₁ cli₁ M₁ out}
      (hb : Ev (.blk b c clt cli M lvl) (c₁, clt₁, cli₁, M₁))
      (hrest : Ev (.seq rest c₁ clt₁ cli₁ M₁ lvl) out) :
      Ev (.seq (b :: rest) c clt cli M lvl) out
  | para {rich hasCh ex children c clt cli M lvl clt' cli' M'}
      (htr : listTransition "paragraph" lvl clt cli M = (clt', cli', M')) :
      Ev (.blk (Block.mk "paragraph" rich hasCh ex children) c clt cli M lvl)
        (c ++ indentOf lvl ++ joinRuns rich ++ "\n\n", clt', cli', M')
  | heading1 {rich hasCh ex children c clt cli M lvl clt' cli' M'}
      (htr : listTransition "heading_1" lvl clt cli M = (clt', cli', M')) :
      Ev (.blk (Block.mk "heading_1" rich hasCh ex children) c clt cli M lvl)
        (c ++ indentOf lvl ++ "# " ++ joinRuns rich ++ "\n\n", clt', cli', M')
  | heading2 {rich hasCh ex children c clt cli M lvl clt' cli' M'}
      (htr : listTransition "heading_2" lvl clt cli M = (clt', cli', M')) :
      Ev (.blk (Block.mk "heading_2" rich hasCh ex children) c clt cli M lvl)
        (c ++ indentOf lvl ++ "## " ++ joinRuns rich ++ "\n\n", clt', cli', M')
  | heading3 {rich hasCh ex children c clt cli M lvl clt' cli' M'}
      (htr : listTransition "heading_3" lvl clt cli M = (clt', cli', M')) :
      Ev (.blk (Block.mk "heading_3" rich hasCh ex children) c clt cli M lvl)
        (c ++ indentOf lvl ++ "### " ++ joinRuns rich ++ "\n\n", clt', cli', M')
  | bulletedChild {rich ex children c clt cli M lvl clt' cli' M' cc x y M₂}
      (htr : listTransition "bulleted_list_item" lvl clt cli M = (clt', cli', M'))
      (hch : Ev (.seq children "" none "" M' (lvl + 1)) (cc, x, y, M₂)) :
      Ev (.blk (Block.mk "bulleted_list_item" rich true ex children) c clt cli M lvl)
        (if cc.trim ≠ "" then
            c ++ indentOf lvl ++ "â€¢ " ++ joinRuns rich ++ "\n" ++ cc ++ "\n"
          else c ++ indentOf lvl ++ "â€¢ " ++ joinRuns rich ++ "\n", clt', cli', M₂)
  | bulletedNoChild {rich ex children c clt cli M lvl clt' cli' M'}
      (htr : listTransition "bulleted_list_item" lvl clt cli M = (clt', cli', M')) :
      Ev (.blk (Block.mk "bulleted_list_item" rich false ex children) c clt cli M lvl)
        (c ++ indentOf lvl ++ "â€¢ " ++ joinRuns rich ++ "\n", clt', cli', M')
  | numberedChild {rich ex children c clt cli M lvl clt' cli' M' cc x y M₂}
      (htr : listTransition "numbered_list_item" lvl clt cli M = (clt', cli', M'))
      (hch : Ev (.seq children "" none ""
          (mapSet M' (listIdOf lvl true false)
            (listNumberOf M' (listIdOf lvl true false) + 1)) (lvl + 1)) (cc, x, y, M₂)) :
      Ev (.blk (Block.mk "numbered_list_item" rich true ex children) c clt cli M lvl)
        (if cc.trim ≠ "" then
            c ++ indentOf lvl ++ Nat.repr (listNumberOf M' (listIdOf lvl true false))
              ++ ". " ++ joinRuns rich ++ "\n" ++ cc ++ "\n"
          else c ++ indentOf lvl ++ Nat.repr (listNumberOf M' (listIdOf lvl true false))
              ++ ". " ++ joinRuns rich ++ "\n", clt', cli', M₂)
  | numberedNoChild {rich ex children c clt cli M lvl clt' cli' M'}
      (htr : listTransition "numbered_list_item" lvl clt cli M = (clt', cli', M')) :
      Ev (.blk (Block.mk "numbered_list_item" rich false ex children) c clt cli M lvl)
        (c ++ indentOf lvl ++ Nat.repr (listNumberOf M' (listIdOf lvl true false))
            ++ ". " ++ joinRuns rich ++ "\n", clt', cli',
          mapSet M' (listIdOf lvl true false)
            (listNumberOf M' (listIdOf lvl true false) + 1))
  | code {rich hasCh ex children c clt cli M lvl clt' cli' M'}
      (htr : listTransition "code" lvl clt cli M = (clt', cli', M')) :
      Ev (.blk (Block.mk "code" rich hasCh ex children) c clt cli M lvl)
        (c ++ indentOf lvl ++ "<pre><code class=\"" ++ ex.language.getD "" ++ "\">\n"
          ++ joinRuns rich ++ "\n</code></pre>\n\n", clt', cli', M')
  | quote {rich hasCh ex children c clt cli M lvl clt' cli' M'}
      (htr : listTransition "quote" lvl clt cli M = (clt', cli', M')) :
      Ev (.blk (Block.mk "quote" rich hasCh ex children) c clt cli M lvl)
        (c ++ indentOf lvl ++ "> " ++ joinRuns rich ++ "\n\n", clt', cli', M')
  | divider {rich hasCh ex children c clt cli M lvl clt' cli' M'}
      (htr : listTransition "divider" lvl clt cli M = (clt', cli', M')) :
      Ev (.blk (Block.mk "divider" rich hasCh ex children) c clt cli M lvl)
        (c ++ indentOf lvl ++ "---\n\n", clt', cli', M')
  | toggleChild {rich ex children c clt cli M lvl clt' cli' M' cc x y M₂}
      (htr : listTransition "toggle" lvl clt cli M = (clt', cli', M'))
      (hch : Ev (.seq children "" none "" M' (lvl + 1)) (cc, x, y, M₂)) :
      Ev (.blk (Block.mk "toggle" rich true ex children) c clt cli M lvl)
        (c ++ indentOf lvl ++ "**" ++ joinRuns rich ++ "**\n\n" ++ cc, clt', cli', M₂)
  | toggleNoChild {rich ex children c clt cli M lvl clt' cli' M'}
      (htr : listTransition "toggle" lvl clt cli M = (clt', cli', M')) :
      Ev (.blk (Block.mk "toggle" rich false ex children) c clt cli M lvl)
        (c ++ indentOf lvl ++ "**" ++ joinRuns rich ++ "**\n\n", clt', cli', M')
  | todoChild {rich ex children c clt cli M lvl clt' cli' M' cc x y M₂}
      (htr : listTransition "to_do" lvl clt cli M = (clt', cli', M'))
      (hch : Ev (.seq children "" none "" M' (lvl + 1)) (cc, x, y, M₂)) :
      Ev (.blk (Block.mk "to_do" rich true ex children) c clt cli M lvl)
        (c ++ indentOf lvl ++ "- [" ++ (if ex.checked then "x" else " ") ++ "] "
          ++ joinRuns rich ++ "\n" ++ cc, clt', cli', M₂)
  | todoNoChild {rich ex children c clt cli M lvl clt' cli' M'}
      (htr : listTransition "to_do" lvl clt cli M = (clt', cli', M')) :
      Ev (.blk (Block.mk "to_do" rich false ex children) c clt cli M lvl)
        (c ++ indentOf lvl ++ "- [" ++ (if ex.checked then "x" else " ") ++ "] "
          ++ joinRuns rich ++ "\n", clt', cli', M')
  | calloutChild {rich ex children c clt cli M lvl clt' cli' M' cc x y M₂}
      (htr : listTransition "callout" lvl clt cli M = (clt', cli', M'))
      (hch : Ev (.seq children "" none "" M' (lvl + 1)) (cc, x, y, M₂)) :
      Ev (.blk (Block.mk "callout" rich true ex children) c clt cli M lvl)
        (c ++ indentOf lvl ++ "> " ++ ex.emoji.getD "" ++ " **Note:** "
          ++ joinRuns rich ++ "\n\n" ++ cc, clt', cli', M₂)
  | calloutNoChild {rich ex children c clt cli M lvl clt' cli' M'}
      (htr : listTransition "callout" lvl clt cli M = (clt', cli', M')) :
      Ev (.blk (Block.mk "callout" rich false ex children) c clt cli M lvl)
        (c ++ indentOf lvl ++ "> " ++ ex.emoji.getD "" ++ " **Note:** "
          ++ joinRuns rich ++ "\n\n", clt', cli', M')
  | table {rich hasCh ex children c clt cli M lvl clt' cli' M'}
      (htr : listTransition "table" lvl clt cli M = (clt', cli', M')) :
      Ev (.blk (Block.mk "table" rich hasCh ex children) c clt cli M lvl)
        (if hasCh then c ++ formatTableContent children (indentOf lvl) else c,
          clt', cli', M')
  | image {rich hasCh ex children c clt cli M lvl clt' cli' M'}
      (htr : listTransition "image" lvl clt cli M = (clt', cli', M')) :
      Ev (.blk (Block.mk "image" rich hasCh ex children) c clt cli M lvl)
        (c ++ indentOf lvl ++ "!["
          ++ (if ex.caption.length > 0 then joinRuns ex.caption else "Image") ++ "]("
          ++ (if ex.urlKind == "external" then ex.url
            else if ex.urlKind == "file" then ex.url else "") ++ ")\n\n",
          clt', cli', M')
  | bookmark {rich hasCh ex children c clt cli M lvl clt' cli' M'}
      (htr : listTransition "bookmark" lvl clt cli M = (clt', cli', M')) :
      Ev (.blk (Block.mk "bookmark" rich hasCh ex children) c clt cli M lvl)
        (c ++ indentOf lvl ++ "["
          ++ (if ex.caption.length > 0 then joinRuns ex.caption else ex.url) ++ "]("
          ++ ex.url ++ ")\n\n", clt', cli', M')
  | media {t rich hasCh ex children c clt cli M lvl clt' cli' M'}
      (hm : (t == "embed" || t == "video" || t == "audio" || t == "file"
        || t == "pdf") = true)
      (hnl : (t == "paragraph" || t == "heading_1" || t == "heading_2"
        || t == "heading_3" || t == "bulleted_list_item" || t == "numbered_list_item"
        || t == "code" || t == "quote" || t == "divider" || t == "toggle"
        || t == "to_do" || t == "callout" || t == "table" || t == "image"
        || t == "bookmark") = false)
      (htr : listTransition t lvl clt cli M = (clt', cli', M')) :
      Ev (.blk (Block.mk t rich hasCh ex children) c clt cli M lvl)
        (c ++ indentOf lvl ++ "[" ++ capFirst t ++ "]("
          ++ (if ex.urlKind == "external" then ex.url
            else if ex.urlKind == "file" then ex.url else "") ++ ")\n\n",
          clt', cli', M')
  | equation {rich hasCh ex children c clt cli M lvl clt' cli' M'}
      (htr : listTransition "equation" lvl clt cli M = (clt', cli', M')) :
      Ev (.blk (Block.mk "equation" rich hasCh ex children) c clt cli M lvl)
        (c ++ indentOf lvl ++ "$$\n" ++ ex.expression ++ "\n$$\n\n", clt', cli', M')
  | syncedChild {rich ex children c clt cli M lvl clt' cli' M' cc x y M₂}
      (htr : listTransition "synced_block" lvl clt cli M = (clt', cli', M'))
      (hch : Ev (.seq children "" none "" M' lvl) (cc, x, y, M₂)) :
      Ev (.blk (Block.mk "synced_block" rich true ex children) c clt cli M lvl)
        (c ++ cc, clt', cli', M₂)
  | syncedNoChild {rich ex children c clt cli M lvl clt' cli' M'}
      (htr : listTransition "synced_block" lvl clt cli M = (clt', cli', M')) :
      Ev (.blk (Block.mk "synced_block" rich false ex children) c clt cli M lvl)
        (c, clt', cli', M')
  | template {rich hasCh ex children c clt cli M lvl clt' cli' M'}
      (htr : listTransition "template" lvl clt cli M = (clt', cli', M')) :
      Ev (.blk (Block.mk "template" rich hasCh ex children) c clt cli M lvl)
        (c ++ indentOf lvl ++ "*Template:* " ++ joinRuns rich ++ "\n\n", clt', cli', M')
  | linkToPage {rich hasCh ex children c clt cli M lvl clt' cli' M'}
      (htr : listTransition "link_to_page" lvl clt cli M = (clt', cli', M')) :
      Ev (.blk (Block.mk "link_to_page" rich hasCh ex children) c clt cli M lvl)
        (c ++ indentOf lvl ++ "[Link to page](notion://page/"
          ++ (if ex.linkKind == "page_id" then ex.linkId
            else if ex.linkKind == "database_id" then ex.linkId else "") ++ ")\n\n",
          clt', cli', M')
  | columnListChild {rich ex children c clt cli M lvl clt' cli' M' cc x y M₂}
      (htr : listTransition "column_list" lvl clt cli M = (clt', cli', M'))
      (hch : Ev (.cols children c M' lvl) (cc, x, y, M₂)) :
      Ev (.blk (Block.mk "column_list" rich true ex children) c clt cli M lvl)
        (cc, clt', cli', M₂)
  | columnListNoChild {rich ex children c clt cli M lvl clt' cli' M'}
      (htr : listTransition "column_list" lvl clt cli M = (clt', cli', M')) :
      Ev (.blk (Block.mk "column_list" rich false ex children) c clt cli M lvl)
        (c, clt', cli', M')
  | otherChild {t rich ex children c clt cli M lvl clt' cli' M' cc x y M₂}
      (hk : handledKind t = false)
      (htr : listTransition t lvl clt cli M = (clt', cli', M'))
      (hch : Ev (.seq children "" none "" M' lvl) (cc, x, y, M₂)) :
      Ev (.blk (Block.mk t rich true ex children) c clt cli M lvl)
        (c ++ cc, clt', cli', M₂)
  | otherNoChild {t rich ex children c clt cli M lvl clt' cli' M'}
      (hk : handledKind t = false)
      (htr : listTransition t lvl clt cli M = (clt', cli', M')) :
      Ev (.blk (Block.mk t rich false ex children) c clt cli M lvl)
        (c, clt', cli', M')
  | colsNil {c M lvl} : Ev (.cols [] c M lvl) (c, none, "", M)
  | colsColumn {crich cex cchildren rest c M lvl cc x y M₁ out}
      (hch : Ev (.seq cchildren "" none "" M lvl) (cc, x, y, M₁))
      (hrest : Ev (.cols rest (c ++ cc) M₁ lvl) out) :
      Ev (.cols (Block.mk "column" crich true cex cchildren :: rest) c M lvl) out
  | colsSkip {ct crich cHasCh cex cchildren rest c M lvl out}
      (hc : (ct == "column" && cHasCh) = false)
      (hrest : Ev (.cols rest c M lvl) out) :
      Ev (.cols (Block.mk ct crich cHasCh cex cchildren :: rest) c M lvl) out

/-- Every derivation's output is the output the functional embedding
computes: the run relation is the graph of `evalCall`. -/
theorem Ev_eq_eval {call : DecodeCall} {out : String × Option String × String × ListMap}
    (h : Ev call out) : out = evalCall call := by
  induction h with
  | seqNil => rfl
  | seqCons hb hrest ih1 ih2 =>
    simp only [evalCall] at ih1 ih2 ⊢
    simp only [decodeBlocks, ← ih1]
    exact ih2
  | para htr => simp [evalCall, decodeBlock, htr]
  | heading1 htr => simp [evalCall, decodeBlock, htr]
  | heading2 htr => simp [evalCall, decodeBlock, htr]
  | heading3 htr => simp [evalCall, decodeBlock, htr]
  | bulletedChild htr hch ih =>
    simp only [evalCall] at ih ⊢
    simp [decodeBlock, htr, ← ih]
    split <;> rfl
  | bulletedNoChild htr => simp [evalCall, decodeBlock, htr]
  | numberedChild htr hch ih =>
    simp only [evalCall] at ih ⊢
    simp [decodeBlock, htr, ← ih]
    split <;> rfl
  | numberedNoChild htr => simp [evalCall, decodeBlock, htr]
  | code htr => simp [evalCall, decodeBlock, htr]
  | quote htr => simp [evalCall, decodeBlock, htr]
  | divider htr => simp [evalCall, decodeBlock, htr]
  | toggleChild htr hch ih =>
    simp only [evalCall] at ih ⊢
    simp [decodeBlock, htr, ← ih]
  | toggleNoChild htr => simp [evalCall, decodeBlock, htr]
  | todoChild htr hch ih =>
    simp only [evalCall] at ih ⊢
    simp [decodeBlock, htr, ← ih]
  | todoNoChild htr => simp [evalCall, decodeBlock, htr]
  | calloutChild htr hch ih =>
    simp only [evalCall] at ih ⊢
    simp [decodeBlock, htr, ← ih]
  | calloutNoChild htr => simp [evalCall, decodeBlock, htr]
  | table htr =>
    simp [evalCall, decodeBlock, htr]
    split <;> rfl
  | image htr => simp [evalCall, decodeBlock, htr]
  | bookmark htr => simp [evalCall, decodeBlock, htr]
  | media hm hnl htr =>
    simp only [Bool.or_eq_false_iff] at hnl
    obtain ⟨⟨⟨⟨⟨⟨⟨⟨⟨⟨⟨⟨⟨⟨g1, g2⟩, g3⟩, g4⟩, g5⟩, g6⟩, g7⟩, g8⟩, g9⟩, g10⟩, g11⟩,
      g12⟩, g13⟩, g14⟩, g15⟩ := hnl
    simp [evalCall, decodeBlock, htr, hm, g1, g2, g3, g4, g5, g6, g7, g8, g9, g10,
      g11, g12, g13, g14, g15]
  | equation htr => simp [evalCall, decodeBlock, htr]
  | syncedChild htr hch ih =>
    simp only [evalCall] at ih ⊢
    simp [decodeBlock, htr, ← ih]
  | syncedNoChild htr => simp [evalCall, decodeBlock, htr]
  | template htr => simp [evalCall, decodeBlock, htr]
  | linkToPage htr => simp [evalCall, decodeBlock, htr]
  | columnListChild htr hch ih =>
    simp only [evalCall] at ih ⊢
    simp [decodeBlock, htr, ← ih]
    exact ⟨congrArg Prod.fst ih, congrArg (fun p => p.2.2.2) ih⟩
  | columnListNoChild htr => simp [evalCall, decodeBlock, htr]
  | otherChild hk htr hch ih =>
    simp only [handledKind, Bool.or_eq_false_iff] at hk
    obtain ⟨⟨⟨⟨⟨⟨⟨⟨⟨⟨⟨⟨⟨⟨⟨⟨⟨⟨⟨⟨⟨⟨⟨⟨h1, h2⟩, h3⟩, h4⟩, h5⟩, h6⟩, h7⟩, h8⟩, h9⟩, h10⟩,
      h11⟩, h12⟩, h13⟩, h14⟩, h15⟩, h16⟩, h17⟩, h18⟩, h19⟩, h20⟩, h21⟩, h22⟩, h23⟩,
      h24⟩, h25⟩ := hk
    simp only [evalCall] at ih ⊢
    simp [decodeBlock, htr, ← ih, h1, h2, h3, h4, h5, h6, h7, h8, h9, h10, h11, h12,
      h13, h14, h15, h16, h17, h18, h19, h20, h21, h22, h23, h24, h25]
  | otherNoChild hk htr =>
    simp only [handledKind, Bool.or_eq_false_iff] at hk
    obtain ⟨⟨⟨⟨⟨⟨⟨⟨⟨⟨⟨⟨⟨⟨⟨⟨⟨⟨⟨⟨⟨⟨⟨⟨h1, h2⟩, h3⟩, h4⟩, h5⟩, h6⟩, h7⟩, h8⟩, h9⟩, h10⟩,
      h11⟩, h12⟩, h13⟩, h14⟩, h15⟩, h16⟩, h17⟩, h18⟩, h19⟩, h20⟩, h21⟩, h22⟩, h23⟩,
      h24⟩, h25⟩ := hk
    simp [evalCall, decodeBlock, htr, h1, h2, h3, h4, h5, h6, h7, h8, h9, h10, h11,
      h12, h13, h14, h15, h16, h17, h18, h19, h20, h21, h22, h23, h24, h25]
  | colsNil => rfl
  | colsColumn hch hrest ih1 ih2 =>
    simp only [evalCall] at ih1 ih2 ⊢
    simp only [decodeColumns]
    simp [← ih1]
    exact ih2
  | colsSkip hc hrest ih =>
    simp only [evalCall] at ih ⊢
    simp only [decodeColumns]
    simp [hc]
    exact ih

mutual

/-- The size of a block: itself plus its subtree, for the recursion below. -/
def blockSize : Block → Nat
  | .mk _ _ _ _ cs => 1 + blockListSize cs

def blockListSize : List Block → Nat
  | [] => 0
  | b :: bs => 1 + blockSize b + blockListSize bs

end

def callSize : DecodeCall → Nat
  | .seq bs _ _ _ _ _ => blockListSize bs
  | .blk b _ _ _ _ _ => blockSize b
  | .cols cs _ _ _ => blockListSize cs

theorem ite_tuple {α β : Type} (P : Prop) [Decidable P] (a b : α) (y : β) :
    (if P then (a, y) else (b, y)) = ((if P then a else b), y) := by
  split <;> rfl

/-- Every call has a run: the run relation covers every block tree, with the
functional embedding's output. -/
theorem Ev_eval : (call : DecodeCall) → Ev call (evalCall call)
  | .seq [] _ _ _ _ _ => Ev.seqNil
  | .seq (b :: rest) c clt cli M lvl => by
    exact Ev.seqCons (Ev_eval (.blk b c clt cli M lvl))
      (Ev_eval (.seq rest (decodeBlock b c clt cli M lvl).1
        (decodeBlock b c clt cli M lvl).2.1 (decodeBlock b c clt cli M lvl).2.2.1
        (decodeBlock b c clt cli M lvl).2.2.2 lvl))
  | .cols [] _ _ _ => Ev.colsNil
  | .cols (Block.mk ct crich cHasCh cex cchildren :: rest) c M lvl => by
    by_cases hcol : (ct == "column" && cHasCh) = true
    · have hct : ct = "column" := by
        have h := hcol
        simp only [Bool.and_eq_true, beq_iff_eq] at h
        exact h.1
      have hch : cHasCh = true := by
        have h := hcol
        simp only [Bool.and_eq_true] at h
        exact h.2
      subst hct; subst hch
      simpa [evalCall, decodeColumns] using
        Ev.colsColumn (Ev_eval (.seq cchildren "" none "" M lvl))
          (Ev_eval (.cols rest
            (c ++ (decodeBlocks cchildren "" none "" M lvl).1)
            (decodeBlocks cchildren "" none "" M lvl).2.2.2 lvl))
    · have hcol2 : (ct == "column" && cHasCh) = false := by
        revert hcol; cases (ct == "column" && cHasCh) <;> simp
      simpa [evalCall, decodeColumns, hcol2] using
        Ev.colsSkip hcol2 (Ev_eval (.cols rest c M lvl))
  | .blk (Block.mk t rich hasCh ex children) c clt cli M lvl => by
    by_cases h1 : t = "paragraph"
    · subst h1; simpa [evalCall, decodeBlock] using Ev.para rfl
    by_cases h2 : t = "heading_1"
    · subst h2; simpa [evalCall, decodeBlock] using Ev.heading1 rfl
    by_cases h3 : t = "heading_2"
    · subst h3; simpa [evalCall, decodeBlock] using Ev.heading2 rfl
    by_cases h4 : t = "heading_3"
    · subst h4; simpa [evalCall, decodeBlock] using Ev.heading3 rfl
    by_cases h5 : t = "bulleted_list_item"
    · subst h5
      cases hasCh with
      | true =>
        simpa [evalCall, decodeBlock, ite_tuple] using
          @Ev.bulletedChild rich ex children c clt cli M lvl
            (listTransition "bulleted_list_item" lvl clt cli M).1
            (listTransition "bulleted_list_item" lvl clt cli M).2.1
            (listTransition "bulleted_list_item" lvl clt cli M).2.2
            (decodeBlocks children "" none ""
              (listTransition "bulleted_list_item" lvl clt cli M).2.2 (lvl + 1)).1
            (decodeBlocks children "" none ""
              (listTransition "bulleted_list_item" lvl clt cli M).2.2 (lvl + 1)).2.1
            (decodeBlocks children "" none ""
              (listTransition "bulleted_list_item" lvl clt cli M).2.2 (lvl + 1)).2.2.1
            (decodeBlocks children "" none ""
              (listTransition "bulleted_list_item" lvl clt cli M).2.2 (lvl + 1)).2.2.2
            rfl
            (Ev_eval (.seq children "" none ""
              (listTransition "bulleted_list_item" lvl clt cli M).2.2 (lvl + 1)))
      | false => simpa [evalCall, decodeBlock] using Ev.bulletedNoChild rfl
    by_cases h6 : t = "numbered_list_item"
    · subst h6
      cases hasCh with
      | true =>
        simpa [evalCall, decodeBlock, ite_tuple] using
          @Ev.numberedChild rich ex children c clt cli M lvl
            (listTransition "numbered_list_item" lvl clt cli M).1
            (listTransition "numbered_list_item" lvl clt cli M).2.1
            (listTransition "numbered_list_item" lvl clt cli M).2.2
            (decodeBlocks children "" none ""
              (mapSet (listTransition "numbered_list_item" lvl clt cli M).2.2
                (listIdOf lvl true false)
                (listNumberOf (listTransition "numbered_list_item" lvl clt cli M).2.2
                  (listIdOf lvl true false) + 1)) (lvl + 1)).1
            (decodeBlocks children "" none ""
              (mapSet (listTransition "numbered_list_item" lvl clt cli M).2.2
                (listIdOf lvl true false)
                (listNumberOf (listTransition "numbered_list_item" lvl clt cli M).2.2
                  (listIdOf lvl true false) + 1)) (lvl + 1)).2.1
            (decodeBlocks children "" none ""
              (mapSet (listTransition "numbered_list_item" lvl clt cli M).2.2
                (listIdOf lvl true false)
                (listNumberOf (listTransition "numbered_list_item" lvl clt cli M).2.2
                  (listIdOf lvl true false) + 1)) (lvl + 1)).2.2.1
            (decodeBlocks children "" none ""
              (mapSet (listTransition "numbered_list_item" lvl clt cli M).2.2
                (listIdOf lvl true false)
                (listNumberOf (listTransition "numbered_list_item" lvl clt cli M).2.2
                  (listIdOf lvl true false) + 1)) (lvl + 1)).2.2.2
            rfl
            (Ev_eval (.seq children "" none ""
              (mapSet (listTransition "numbered_list_item" lvl clt cli M).2.2
                (listIdOf lvl true false)
                (listNumberOf (listTransition "numbered_list_item" lvl clt cli M).2.2
                  (listIdOf lvl true false) + 1)) (lvl + 1)))
      | false => simpa [evalCall, decodeBlock] using Ev.numberedNoChild rfl
    by_cases h7 : t = "code"
    · subst h7; simpa [evalCall, decodeBlock] using Ev.code rfl
    by_cases h8 : t = "quote"
    · subst h8; simpa [evalCall, decodeBlock] using Ev.quote rfl
    by_cases h9 : t = "divider"
    · subst h9; simpa [evalCall, decodeBlock] using Ev.divider rfl
    by_cases h10 : t = "toggle"
    · subst h10
      cases hasCh with
      | true =>
        simpa [evalCall, decodeBlock] using
          @Ev.toggleChild rich ex children c clt cli M lvl
            (listTransition "toggle" lvl clt cli M).1
            (listTransition "toggle" lvl clt cli M).2.1
            (listTransition "toggle" lvl clt cli M).2.2
            (decodeBlocks children "" none ""
              (listTransition "toggle" lvl clt cli M).2.2 (lvl + 1)).1
            (decodeBlocks children "" none ""
              (listTransition "toggle" lvl clt cli M).2.2 (lvl + 1)).2.1
            (decodeBlocks children "" none ""
              (listTransition "toggle" lvl clt cli M).2.2 (lvl + 1)).2.2.1
            (decodeBlocks children "" none ""
              (listTransition "toggle" lvl clt cli M).2.2 (lvl + 1)).2.2.2
            rfl
            (Ev_eval (.seq children "" none ""
              (listTransition "toggle" lvl clt cli M).2.2 (lvl + 1)))
      | false => simpa [evalCall, decodeBlock] using Ev.toggleNoChild rfl
    by_cases h11 : t = "to_do"
    · subst h11
      cases hasCh with
      | true =>
        simpa [evalCall, decodeBlock] using
          @Ev.todoChild rich ex children c clt cli M lvl
            (listTransition "to_do" lvl clt cli M).1
            (listTransition "to_do" lvl clt cli M).2.1
            (listTransition "to_do" lvl clt cli M).2.2
            (decodeBlocks children "" none ""
              (listTransition "to_do" lvl clt cli M).2.2 (lvl + 1)).1
            (decodeBlocks children "" none ""
              (listTransition "to_do" lvl clt cli M).2.2 (lvl + 1)).2.1
            (decodeBlocks children "" none ""
              (listTransition "to_do" lvl clt cli M).2.2 (lvl + 1)).2.2.1
            (decodeBlocks children "" none ""
              (listTransition "to_do" lvl clt cli M).2.2 (lvl + 1)).2.2.2
            rfl
            (Ev_eval (.seq children "" none ""
              (listTransition "to_do" lvl clt cli M).2.2 (lvl + 1)))
      | false => simpa [evalCall, decodeBlock] using Ev.todoNoChild rfl
    by_cases h12 : t = "callout"
    · subst h12
      cases hasCh with
      | true =>
        simpa [evalCall, decodeBlock] using
          @Ev.calloutChild rich ex children c clt cli M lvl
            (listTransition "callout" lvl clt cli M).1
            (listTransition "callout" lvl clt cli M).2.1
            (listTransition "callout" lvl clt cli M).2.2
            (decodeBlocks children "" none ""
              (listTransition "callout" lvl clt cli M).2.2 (lvl + 1)).1
            (decodeBlocks children "" none ""
              (listTransition "callout" lvl clt cli M).2.2 (lvl + 1)).2.1
            (decodeBlocks children "" none ""
              (listTransition "callout" lvl clt cli M).2.2 (lvl + 1)).2.2.1
            (decodeBlocks children "" none ""
              (listTransition "callout" lvl clt cli M).2.2 (lvl + 1)).2.2.2
            rfl
            (Ev_eval (.seq children "" none ""
              (listTransition "callout" lvl clt cli M).2.2 (lvl + 1)))
      | false => simpa [evalCall, decodeBlock] using Ev.calloutNoChild rfl
    by_cases h13 : t = "table"
    · subst h13; simpa [evalCall, decodeBlock, ite_tuple] using Ev.table rfl
    by_cases h14 : t = "image"
    · subst h14; simpa [evalCall, decodeBlock] using Ev.image rfl
    by_cases h15 : t = "bookmark"
    · subst h15; simpa [evalCall, decodeBlock] using Ev.bookmark rfl
    by_cases h16 : t = "embed"
    · subst h16
      simpa [evalCall, decodeBlock] using Ev.media (by decide) (by decide) rfl
    by_cases h17 : t = "video"
    · subst h17
      simpa [evalCall, decodeBlock] using Ev.media (by decide) (by decide) rfl
    by_cases h18 : t = "audio"
    · subst h18
      simpa [evalCall, decodeBlock] using Ev.media (by decide) (by decide) rfl
    by_cases h19 : t = "file"
    · subst h19
      simpa [evalCall, decodeBlock] using Ev.media (by decide) (by decide) rfl
    by_cases h20 : t = "pdf"
    · subst h20
      simpa [evalCall, decodeBlock] using Ev.media (by decide) (by decide) rfl
    by_cases h21 : t = "equation"
    · subst h21; simpa [evalCall, decodeBlock] using Ev.equation rfl
    by_cases h22 : t = "synced_block"
    · subst h22
      cases hasCh with
      | true =>
        simpa [evalCall, decodeBlock] using
          @Ev.syncedChild rich ex children c clt cli M lvl
            (listTransition "synced_block" lvl clt cli M).1
            (listTransition "synced_block" lvl clt cli M).2.1
            (listTransition "synced_block" lvl clt cli M).2.2
            (decodeBlocks children "" none ""
              (listTransition "synced_block" lvl clt cli M).2.2 lvl).1
            (decodeBlocks children "" none ""
              (listTransition "synced_block" lvl clt cli M).2.2 lvl).2.1
            (decodeBlocks children "" none ""
              (listTransition "synced_block" lvl clt cli M).2.2 lvl).2.2.1
            (decodeBlocks children "" none ""
              (listTransition "synced_block" lvl clt cli M).2.2 lvl).2.2.2
            rfl
            (Ev_eval (.seq children "" none ""
              (listTransition "synced_block" lvl clt cli M).2.2 lvl))
      | false => simpa [evalCall, decodeBlock] using Ev.syncedNoChild rfl
    by_cases h23 : t = "template"
    · subst h23; simpa [evalCall, decodeBlock] using Ev.template rfl
    by_cases h24 : t = "link_to_page"
    · subst h24; simpa [evalCall, decodeBlock] using Ev.linkToPage rfl
    by_cases h25 : t = "column_list"
    · subst h25
      cases hasCh with
      | true =>
        simpa [evalCall, decodeBlock] using
          @Ev.columnListChild rich ex children c clt cli M lvl
            (listTransition "column_list" lvl clt cli M).1
            (listTransition "column_list" lvl clt cli M).2.1
            (listTransition "column_list" lvl clt cli M).2.2
            (decodeColumns children c
              (listTransition "column_list" lvl clt cli M).2.2 lvl).1
            none ""
            (decodeColumns children c
              (listTransition "column_list" lvl clt cli M).2.2 lvl).2
            rfl
            (Ev_eval (.cols children c
              (listTransition "column_list" lvl clt cli M).2.2 lvl))
      | false => simpa [evalCall, decodeBlock] using Ev.columnListNoChild rfl
    have hk : handledKind t = false := by
      simp [handledKind, h1, h2, h3, h4, h5, h6, h7, h8, h9, h10, h11, h12, h13,
        h14, h15, h16, h17, h18, h19, h20, h21, h22, h23, h24, h25]
    cases hasCh with
    | true =>
      simpa [evalCall, decodeBlock, h1, h2, h3, h4, h5, h6, h7, h8, h9, h10, h11,
          h12, h13, h14, h15, h16, h17, h18, h19, h20, h21, h22, h23, h24, h25] using
        @Ev.otherChild t rich ex children c clt cli M lvl
          (listTransition t lvl clt cli M).1
          (listTransition t lvl clt cli M).2.1
          (listTransition t lvl clt cli M).2.2
          (decodeBlocks children "" none ""
            (listTransition t lvl clt cli M).2.2 lvl).1
          (decodeBlocks children "" none ""
            (listTransition t lvl clt cli M).2.2 lvl).2.1
          (decodeBlocks children "" none ""
            (listTransition t lvl clt cli M).2.2 lvl).2.2.1
          (decodeBlocks children "" none ""
            (listTransition t lvl clt cli M).2.2 lvl).2.2.2
          hk rfl
          (Ev_eval (.seq children "" none ""
            (listTransition t lvl clt cli M).2.2 lvl))
    | false =>
      simpa [evalCall, decodeBlock, h1, h2, h3, h4, h5, h6, h7, h8, h9, h10, h11,
          h12, h13, h14, h15, h16, h17, h18, h19, h20, h21, h22, h23, h24, h25] using
        @Ev.otherNoChild t rich ex children c clt cli M lvl
          (listTransition t lvl clt cli M).1
          (listTransition t lvl clt cli M).2.1
          (listTransition t lvl clt cli M).2.2
          hk rfl
termination_by call => callSize call
decreasing_by all_goals (simp [callSize, blockSize, blockListSize]; try omega)

/-- **C8** (decode determinism): the run relation `Ev` of
`extractContentFromBlocks` is functional — for a fixed block tree (the
child-fetch function baked into each `Block`'s `children`, so every call
returns the same ordered child list), any two runs from the same call
produce the same output, in particular byte-identical content strings.
Together with `Ev_eval` (every call has a run, whose output is the one
`decodeBlocks` computes) this says decode is deterministic and total on
every block tree. -/
theorem decode_deterministic (call : DecodeCall)
    (r₁ r₂ : String × Option String × String × ListMap)
    (h₁ : Ev call r₁) (h₂ : Ev call r₂) : r₁ = r₂ :=
  (Ev_eq_eval h₁).trans (Ev_eq_eval h₂).symm

/-- Witness for `decode_deterministic`: two runs over a one-paragraph tree. -/
theorem decode_deterministic_witness :
    ("hi\n\n", (none : Option String), "", ([] : ListMap))
      = ("hi\n\n", (none : Option String), "", ([] : ListMap)) :=
  decode_deterministic
    (.seq [Block.mk "paragraph" ["hi"] false noExtra []] "" none "" [] 0)
    ("hi\n\n", none, "", []) ("hi\n\n", none, "", [])
    (Ev.seqCons (Ev.para rfl) Ev.seqNil)
    (Ev.seqCons (Ev.para rfl) Ev.seqNil)

end PromptBook
